import Mathlib

/-!
Shallow embedding of the pwasm ERC20-style token contract
(src/contract/src/lib.rs) and proofs of its specification claims.

The contract state is modelled at the level of the logical storage slots
the spec describes (total-supply slot, owner slot, one balance slot per
address, one allowance slot per ordered address pair, plus the event log).
U256 arithmetic is embedded as `Nat` operations that return `Option Nat`:
`none` models the arithmetic fault (panic/abort) of the `uint` crate's
overflow-checked `+`/`-`, which never silently wraps.

The byte-level key-derivation functions (`balance_key`, `allowance_key`,
the fixed keys, and a full executable keccak-256) are embedded separately,
from the same source file.
-/

set_option maxRecDepth 8000

namespace PwasmToken

/-- An Address is a 20-byte account identifier, modelled as a function
from byte position into byte value. -/
abbrev Address := Fin 20 → Fin 256

/-- Events emitted by the contract: `Transfer(from, dest, value)` and
`Approval(owner, spender, value)`. -/
inductive Event where
  | Transfer (source dest : Address) (value : Nat)
  | Approval (owner spender : Address) (value : Nat)
  deriving DecidableEq

/-- The logical contract state: the total-supply slot, the owner slot,
the balance slot of every address, the allowance slot of every ordered
pair, and the event log. Absent slots read as zero, so the maps are
total functions. -/
structure State where
  totalSupply : Nat
  owner : Address
  balances : Address → Nat
  allowances : Address → Address → Nat
  events : List Event

/-- The fresh storage before construction: every slot reads as zero and
no event has been emitted. -/
def initialState : State :=
  { totalSupply := 0
    owner := fun _ => 0
    balances := fun _ => 0
    allowances := fun _ _ => 0
    events := [] }

/-- Checked U256 addition: `none` models the overflow panic of the
`uint` crate (the result would not fit in 256 bits); never wraps. -/
def u256_add (a b : Nat) : Option Nat :=
  if a + b < 2 ^ 256 then some (a + b) else none

/-- Checked U256 subtraction: `none` models the underflow panic of the
`uint` crate (`b > a`); never wraps. -/
def u256_sub (a b : Nat) : Option Nat :=
  if b ≤ a then some (a - b) else none

/-- TokenContractInstance::constructor (lib.rs:117-125): writes the
total supply under its fixed key, writes the total supply into the
sender's balance slot, and records the sender in the owner slot. -/
def constructor (sender : Address) (total_supply : Nat) (st : State) : State :=
  { st with
    totalSupply := total_supply
    balances := Function.update st.balances sender total_supply
    owner := sender }

/-- balanceOf (lib.rs:127-129): reads the balance slot of `owner`. -/
def balanceOf (st : State) (owner : Address) : Nat :=
  st.balances owner

/-- totalSupply (lib.rs:131-133): reads the total-supply slot. -/
def totalSupply (st : State) : Nat :=
  st.totalSupply

/-- allowance (lib.rs:158-160): reads the allowance slot of the ordered
pair `(owner, spender)`. -/
def allowance (st : State) (owner spender : Address) : Nat :=
  st.allowances owner spender

/-- TokenContractInstance::transfer (lib.rs:135-150), with `sender`
standing for `eth::sender()`. Returns `none` on an arithmetic fault,
otherwise `some` of the boolean result and the post-state. The success
path writes the sender's balance slot, then the recipient's, then emits
one `Transfer` event. -/
def transfer (sender dest : Address) (amount : Nat) (st : State) :
    Option (Bool × State) :=
  let senderBalance := st.balances sender
  let recipientBalance := st.balances dest
  if amount = 0 ∨ senderBalance < amount ∨ dest = sender then
    some (false, st)
  else
    (u256_sub senderBalance amount).bind fun new_sender_balance =>
    (u256_add recipientBalance amount).bind fun new_recipient_balance =>
    some (true,
      { st with
        balances :=
          Function.update
            (Function.update st.balances sender new_sender_balance)
            dest new_recipient_balance
        events := st.events ++ [Event.Transfer sender dest amount] })

/-- TokenContractInstance::approve (lib.rs:152-156), with `sender`
standing for `eth::sender()`: unconditionally overwrites the allowance
slot of `(sender, spender)`, emits one `Approval` event, returns true. -/
def approve (sender spender : Address) (value : Nat) (st : State) :
    Bool × State :=
  (true,
    { st with
      allowances :=
        Function.update st.allowances sender
          (Function.update (st.allowances sender) spender value)
      events := st.events ++ [Event.Approval sender spender value] })

/-- TokenContractInstance::transferFrom (lib.rs:162-179), with `caller`
standing for `eth::sender()`. Returns `none` on an arithmetic fault,
otherwise `some` of the boolean result and the post-state. The success
path writes the allowance slot of `(source, caller)`, then the source's
balance slot, then the recipient's, then emits one `Transfer` event. -/
def transferFrom (caller source dest : Address) (amount : Nat) (st : State) :
    Option (Bool × State) :=
  let fromBalance := st.balances source
  let recipientBalance := st.balances dest
  let allowed := st.allowances source caller
  if allowed < amount ∨ amount = 0 ∨ fromBalance < amount ∨ dest = source then
    some (false, st)
  else
    (u256_sub allowed amount).bind fun new_allowed =>
    (u256_sub fromBalance amount).bind fun new_from_balance =>
    (u256_add recipientBalance amount).bind fun new_recipient_balance =>
    some (true,
      { st with
        allowances :=
          Function.update st.allowances source
            (Function.update (st.allowances source) caller new_allowed)
        balances :=
          Function.update
            (Function.update st.balances source new_from_balance)
            dest new_recipient_balance
        events := st.events ++ [Event.Transfer source dest amount] })

/-- Reachability from a single construction on fresh storage: the state
produced by `constructor(creator, supply)` (with `supply` a U256 value),
followed by any finite sequence of `transfer`, `transferFrom`, and
`approve` calls, successful or rejected. Calls that abort with an
arithmetic fault produce no state. -/
inductive Reachable (creator : Address) (supply : Nat) : State → Prop where
  | init :
      supply < 2 ^ 256 →
      Reachable creator supply (constructor creator supply initialState)
  | stepTransfer {st st' : State} {sender dest : Address} {amount : Nat} {b : Bool} :
      Reachable creator supply st →
      transfer sender dest amount st = some (b, st') →
      Reachable creator supply st'
  | stepTransferFrom {st st' : State} {caller source dest : Address} {amount : Nat}
      {b : Bool} :
      Reachable creator supply st →
      transferFrom caller source dest amount st = some (b, st') →
      Reachable creator supply st'
  | stepApprove {st : State} {sender spender : Address} {value : Nat} :
      Reachable creator supply st →
      Reachable creator supply (approve sender spender value st).2

/-- The sum of the balance slots of all addresses. -/
def sumBalances (st : State) : Nat :=
  ∑ a : Address, st.balances a

/-! ## Byte-level key derivation (lib.rs:71-112)

Storage keys are 32-byte values, modelled as lists of byte values.
`allowance_key` hashes with keccak-256, embedded below in full
(keccak-f[1600] over `Nat` lanes reduced mod `2 ^ 64`, with the original
0x01 multi-rate padding used by `tiny_keccak::Keccak::new_keccak256`).
-/

/-- The 20 raw bytes of an address, most significant first. -/
def addressBytes (a : Address) : List Nat :=
  List.ofFn fun i => (a i : Nat)

/-- TOTAL_SUPPLY_KEY (lib.rs:72-73): the fixed 32-byte key
`[2, 0, ..., 0]`. -/
def TOTAL_SUPPLY_KEY : List Nat :=
  2 :: List.replicate 31 0

/-- OWNER_KEY (lib.rs:74-75): the fixed 32-byte key `[3, 0, ..., 0]`. -/
def OWNER_KEY : List Nat :=
  3 :: List.replicate 31 0

/-- balance_key (lib.rs:85-89): `H256::from(address)` zero-extends the
20-byte address into the last 20 bytes of a 32-byte key, then byte 0 is
overwritten with the namespace tag 1. -/
def balance_key (a : Address) : List Nat :=
  1 :: List.replicate 11 0 ++ addressBytes a

/-- Left rotation of a 64-bit lane. -/
def rotl64 (x n : Nat) : Nat :=
  ((x <<< n) ||| (x >>> (64 - n))) % 2 ^ 64

/-- Rotation offset of the rho step for the lane at `x + 5 * y`. -/
def keccakRho (i : Nat) : Nat :=
  match i with
  | 0 => 0
  | 1 => 1
  | 2 => 62
  | 3 => 28
  | 4 => 27
  | 5 => 36
  | 6 => 44
  | 7 => 6
  | 8 => 55
  | 9 => 20
  | 10 => 3
  | 11 => 10
  | 12 => 43
  | 13 => 25
  | 14 => 39
  | 15 => 41
  | 16 => 45
  | 17 => 15
  | 18 => 21
  | 19 => 8
  | 20 => 18
  | 21 => 2
  | 22 => 61
  | 23 => 56
  | _ => 14

/-- Round constant of the iota step for round `i`. -/
def keccakRC (i : Nat) : Nat :=
  match i with
  | 0 => 0x1
  | 1 => 0x8082
  | 2 => 0x800000000000808a
  | 3 => 0x8000000080008000
  | 4 => 0x808b
  | 5 => 0x80000001
  | 6 => 0x8000000080008081
  | 7 => 0x8000000000008009
  | 8 => 0x8a
  | 9 => 0x88
  | 10 => 0x80008009
  | 11 => 0x8000000a
  | 12 => 0x8000808b
  | 13 => 0x800000000000008b
  | 14 => 0x8000000000008089
  | 15 => 0x8000000000008003
  | 16 => 0x8000000000008002
  | 17 => 0x8000000000000080
  | 18 => 0x800a
  | 19 => 0x800000008000000a
  | 20 => 0x8000000080008081
  | 21 => 0x8000000000008080
  | 22 => 0x80000001
  | _ => 0x8000000080008008

/-- Theta step of keccak-f[1600]; the state is 25 lanes indexed by
`x + 5 * y`. -/
def theta (A : List Nat) : List Nat :=
  let C := (List.range 5).map fun x =>
    A.getD x 0 ^^^ A.getD (x + 5) 0 ^^^ A.getD (x + 10) 0 ^^^
      A.getD (x + 15) 0 ^^^ A.getD (x + 20) 0
  let D := (List.range 5).map fun x =>
    C.getD ((x + 4) % 5) 0 ^^^ rotl64 (C.getD ((x + 1) % 5) 0) 1
  (List.range 25).map fun i => A.getD i 0 ^^^ D.getD (i % 5) 0

/-- Combined rho and pi steps: lane `(X, Y)` of the output is lane
`(x, y) = ((X + 3 * Y) % 5, X)` of the input rotated by its offset. -/
def rhoPi (A : List Nat) : List Nat :=
  (List.range 25).map fun i =>
    let X := i % 5
    let Y := i / 5
    let x := (X + 3 * Y) % 5
    let y := X
    rotl64 (A.getD (x + 5 * y) 0) (keccakRho (x + 5 * y))

/-- Chi step; lane complement is xor with the all-ones 64-bit mask. -/
def chi (B : List Nat) : List Nat :=
  (List.range 25).map fun i =>
    let x := i % 5
    let y := i / 5
    B.getD i 0 ^^^
      ((B.getD ((x + 1) % 5 + 5 * y) 0 ^^^ (2 ^ 64 - 1)) &&&
        B.getD ((x + 2) % 5 + 5 * y) 0)

/-- One round of keccak-f[1600]: theta, rho, pi, chi, then iota. -/
def keccakRound (A : List Nat) (rc : Nat) : List Nat :=
  let B := chi (rhoPi (theta A))
  (B.getD 0 0 ^^^ rc) :: B.drop 1

/-- The full 24-round keccak-f[1600] permutation. -/
def keccakF (A : List Nat) : List Nat :=
  (List.range 24).foldl (fun B i => keccakRound B (keccakRC i)) A

/-- Assemble a 64-bit lane from up to 8 bytes, little-endian. -/
def bytesToLane (bs : List Nat) : Nat :=
  bs.foldr (fun b acc => b + 256 * acc) 0

/-- Split a 64-bit lane into 8 bytes, little-endian. -/
def laneToBytes (x : Nat) : List Nat :=
  (List.range 8).map fun k => x >>> (8 * k) % 256

/-- Original keccak multi-rate padding at rate 136 bytes: append 0x01,
zero fill, set the last bit of the block (0x81 when one byte is left). -/
def keccakPad (input : List Nat) : List Nat :=
  let m := input.length % 136
  if m = 135 then input ++ [0x81]
  else input ++ [0x01] ++ List.replicate (134 - m) 0 ++ [0x80]

/-- Xor one 136-byte block into the first 17 lanes and permute. -/
def absorbBlock (A block : List Nat) : List Nat :=
  keccakF <| (List.range 25).map fun i =>
    A.getD i 0 ^^^ (if i < 17 then bytesToLane ((block.drop (8 * i)).take 8) else 0)

/-- Absorb `n` consecutive 136-byte blocks. -/
def absorbBlocks : Nat → List Nat → List Nat → List Nat
  | 0, A, _ => A
  | n + 1, A, bs => absorbBlocks n (absorbBlock A (bs.take 136)) (bs.drop 136)

/-- keccak-256 of a byte list: pad, absorb, and squeeze the first 32
bytes of the state. -/
def keccak256 (input : List Nat) : List Nat :=
  let p := keccakPad input
  let A := absorbBlocks (p.length / 136) (List.replicate 25 0) p
  ((List.range 4).map fun i => laneToBytes (A.getD i 0)).flatten

/-- The fixed ASCII domain-separation label `"allowance_key"`
(lib.rs:107). -/
def ALLOWANCE_LABEL : List Nat :=
  "allowance_key".toList.map Char.toNat

/-- The exact byte string hashed by `allowance_key`: the label, then the
owner's 20 raw bytes, then the spender's 20 raw bytes (the three
`keccak.update` calls of lib.rs:107-109 concatenated). -/
def allowanceKeyInput (owner spender : Address) : List Nat :=
  ALLOWANCE_LABEL ++ addressBytes owner ++ addressBytes spender

/-- allowance_key (lib.rs:104-112): keccak-256 of the label and the two
addresses. -/
def allowance_key (owner spender : Address) : List Nat :=
  keccak256 (allowanceKeyInput owner spender)

/-! ## Concrete addresses and states used as evaluation points -/

/-- The all-zero address. -/
def addrA : Address := fun _ => 0

/-- The address whose every byte is 1. -/
def addrB : Address := fun _ => 1

/-- The address whose every byte is 2. -/
def addrC : Address := fun _ => 2

/-- A concrete state: `constructor(addrA, 100)` on fresh storage. -/
def exSt : State := constructor addrA 100 initialState

/-- A concrete state: `exSt` after `approve(addrB, 50)` called by
`addrA`. -/
def exApSt : State := (approve addrA addrB 50 exSt).2

/-- A concrete state: `exSt` after the self-approval `approve(addrA, 50)`
called by `addrA`. -/
def exSelfApSt : State := (approve addrA addrA 50 exSt).2

/-! ## Characterization of the two fallible operations -/

/-- The post-state of a successful `transfer` call: the two balance
writes and the appended `Transfer` event. -/
def transferApply (sender dest : Address) (amount : Nat) (st : State) : State :=
  { st with
    balances :=
      Function.update
        (Function.update st.balances sender (st.balances sender - amount))
        dest (st.balances dest + amount)
    events := st.events ++ [Event.Transfer sender dest amount] }

/-- The post-state of a successful `transferFrom` call: the allowance
write, the two balance writes, and the appended `Transfer` event. -/
def transferFromApply (caller source dest : Address) (amount : Nat) (st : State) :
    State :=
  { st with
    allowances :=
      Function.update st.allowances source
        (Function.update (st.allowances source) caller
          (st.allowances source caller - amount))
    balances :=
      Function.update
        (Function.update st.balances source (st.balances source - amount))
        dest (st.balances dest + amount)
    events := st.events ++ [Event.Transfer source dest amount] }

theorem transfer_eq_cases (sender dest : Address) (amount : Nat) (st : State) :
    transfer sender dest amount st =
      if amount = 0 ∨ st.balances sender < amount ∨ dest = sender then
        some (false, st)
      else if st.balances dest + amount < 2 ^ 256 then
        some (true, transferApply sender dest amount st)
      else none := by
  by_cases hg : amount = 0 ∨ st.balances sender < amount ∨ dest = sender
  · simp [transfer, hg]
  · have hS : amount ≤ st.balances sender := by
      rcases Nat.lt_or_ge (st.balances sender) amount with h | h
      · exact absurd (Or.inr (Or.inl h)) hg
      · exact h
    simp [transfer, transferApply, u256_sub, u256_add, hg, hS, Option.bind]
    split_ifs with h <;> rfl

theorem transferFrom_eq_cases (caller source dest : Address) (amount : Nat)
    (st : State) :
    transferFrom caller source dest amount st =
      if st.allowances source caller < amount ∨ amount = 0 ∨
          st.balances source < amount ∨ dest = source then
        some (false, st)
      else if st.balances dest + amount < 2 ^ 256 then
        some (true, transferFromApply caller source dest amount st)
      else none := by
  by_cases hg : st.allowances source caller < amount ∨ amount = 0 ∨
      st.balances source < amount ∨ dest = source
  · simp [transferFrom, hg]
  · have hAl : amount ≤ st.allowances source caller := by
      rcases Nat.lt_or_ge (st.allowances source caller) amount with h | h
      · exact absurd (Or.inl h) hg
      · exact h
    have hS : amount ≤ st.balances source := by
      rcases Nat.lt_or_ge (st.balances source) amount with h | h
      · exact absurd (Or.inr (Or.inr (Or.inl h))) hg
      · exact h
    simp [transferFrom, transferFromApply, u256_sub, u256_add, hg, hAl, hS, Option.bind]
    split_ifs with h <;> rfl

/-! ## Sum lemmas for the conservation invariant -/

theorem sum_update_pair (f : Address → Nat) (a b : Address) (va vb : Nat)
    (hba : b ≠ a) :
    (∑ x : Address, Function.update (Function.update f a va) b vb x) + (f a + f b) =
      (∑ x : Address, f x) + (va + vb) := by
  have hb : b ∈ (Finset.univ : Finset Address) := Finset.mem_univ b
  have ha : a ∈ (Finset.univ : Finset Address) \ {b} := by
    simp [Finset.mem_sdiff, Ne.symm hba]
  rw [Finset.sum_update_of_mem hb, Finset.sum_update_of_mem ha,
    Finset.sum_eq_sum_diff_singleton_add hb f,
    Finset.sum_eq_sum_diff_singleton_add ha f]
  omega

theorem pair_le_sum (f : Address → Nat) (a b : Address) (hab : a ≠ b) :
    f a + f b ≤ ∑ x : Address, f x :=
  Finset.add_le_sum (fun i _ => Nat.zero_le (f i)) (Finset.mem_univ a)
    (Finset.mem_univ b) hab

/-! ## The conservation invariant over reachable states -/

theorem reachable_invariant {creator : Address} {supply : Nat} {st : State}
    (h : Reachable creator supply st) :
    sumBalances st = st.totalSupply ∧ st.totalSupply = supply ∧ supply < 2 ^ 256 := by
  induction h with
  | init hs =>
    refine ⟨?_, rfl, hs⟩
    unfold sumBalances constructor initialState
    rw [Finset.sum_update_of_mem (Finset.mem_univ creator)]
    simp
  | @stepTransfer st st' sender dest amount b _ heq ih =>
    rw [transfer_eq_cases] at heq
    split_ifs at heq with h1 h2
    · obtain ⟨hb, hst⟩ := Prod.mk.injEq .. ▸ Option.some.inj heq
      exact hst ▸ ih
    · obtain ⟨hb, hst⟩ := Prod.mk.injEq .. ▸ Option.some.inj heq
      subst hst
      have hne : dest ≠ sender := fun hh => h1 (Or.inr (Or.inr hh))
      have hle : amount ≤ st.balances sender :=
        Nat.le_of_not_lt fun hh => h1 (Or.inr (Or.inl hh))
      refine ⟨?_, ih.2⟩
      have hsum := sum_update_pair st.balances sender dest
        (st.balances sender - amount) (st.balances dest + amount) hne
      have heqsum : sumBalances (transferApply sender dest amount st) =
          sumBalances st := by
        unfold sumBalances
        dsimp only [transferApply]
        omega
      exact heqsum.trans ih.1
  | @stepTransferFrom st st' caller source dest amount b _ heq ih =>
    rw [transferFrom_eq_cases] at heq
    split_ifs at heq with h1 h2
    · obtain ⟨hb, hst⟩ := Prod.mk.injEq .. ▸ Option.some.inj heq
      exact hst ▸ ih
    · obtain ⟨hb, hst⟩ := Prod.mk.injEq .. ▸ Option.some.inj heq
      subst hst
      have hne : dest ≠ source := fun hh => h1 (Or.inr (Or.inr (Or.inr hh)))
      have hle : amount ≤ st.balances source :=
        Nat.le_of_not_lt fun hh => h1 (Or.inr (Or.inr (Or.inl hh)))
      refine ⟨?_, ih.2⟩
      have hsum := sum_update_pair st.balances source dest
        (st.balances source - amount) (st.balances dest + amount) hne
      have heqsum : sumBalances (transferFromApply caller source dest amount st) =
          sumBalances st := by
        unfold sumBalances
        dsimp only [transferFromApply]
        omega
      exact heqsum.trans ih.1
  | @stepApprove st sender spender value _ ih =>
    refine ⟨?_, ih.2⟩
    have heqsum : sumBalances (approve sender spender value st).2 = sumBalances st := by
      unfold sumBalances
      dsimp only [approve]
    exact heqsum.trans ih.1

theorem pair_le_totalSupply {creator : Address} {supply : Nat} {st : State}
    (h : Reachable creator supply st) {a b : Address} (hab : a ≠ b) :
    st.balances a + st.balances b ≤ st.totalSupply ∧ st.totalSupply < 2 ^ 256 := by
  have hinv := reachable_invariant h
  have hp := pair_le_sum st.balances a b hab
  unfold sumBalances at hinv
  exact ⟨by omega, by omega⟩

/-! ## The claims -/

/-- C1: starting from a state produced by `constructor(creator, totalSupply)`,
after every finite sequence of `transfer`, `transferFrom`, and `approve`
calls (successful or rejected), the sum over all addresses of
`balanceOf(address)` equals `totalSupply()`. -/
theorem conservation_of_reachable {creator : Address} {supply : Nat} {st : State}
    (h : Reachable creator supply st) :
    sumBalances st = totalSupply st :=
  (reachable_invariant h).1

/-- Witness for C1 at the concrete state `constructor(addrA, 100)`. -/
theorem conservation_of_reachable_witness :
    sumBalances (constructor addrA 100 initialState) =
      totalSupply (constructor addrA 100 initialState) :=
  conservation_of_reachable (Reachable.init (by norm_num))

/-- C2: in every reachable state, `transfer(sender, dest, amount)` returns
true if and only if `amount != 0` and `balanceOf(sender) >= amount` and
`dest != sender`; when it returns true, the sender's balance decreases by
`amount`, the recipient's balance increases by `amount`, and exactly one
`Transfer` event carrying `(sender, dest, amount)` is emitted. -/
theorem transfer_correct {creator : Address} {supply : Nat} {st : State}
    (h : Reachable creator supply st) (sender dest : Address) (amount : Nat) :
    ∃ b st', transfer sender dest amount st = some (b, st') ∧
      (b = true ↔ amount ≠ 0 ∧ amount ≤ balanceOf st sender ∧ dest ≠ sender) ∧
      (b = true →
        balanceOf st' sender + amount = balanceOf st sender ∧
        balanceOf st' dest = balanceOf st dest + amount ∧
        st'.events = st.events ++ [Event.Transfer sender dest amount]) := by
  rw [transfer_eq_cases]
  by_cases hg : amount = 0 ∨ st.balances sender < amount ∨ dest = sender
  · refine ⟨false, st, by simp [hg], ?_, by simp⟩
    simp only [Bool.false_eq_true, false_iff]
    rintro ⟨h0, hle, hne⟩
    rcases hg with hx | hx | hx
    · exact h0 hx
    · exact absurd hle (by unfold balanceOf; omega)
    · exact hne hx
  · have hne : dest ≠ sender := fun hh => hg (Or.inr (Or.inr hh))
    have h0 : amount ≠ 0 := fun hh => hg (Or.inl hh)
    have hle : amount ≤ st.balances sender :=
      Nat.le_of_not_lt fun hh => hg (Or.inr (Or.inl hh))
    have hbd := pair_le_totalSupply h hne
    have hov : st.balances dest + amount < 2 ^ 256 := by omega
    refine ⟨true, transferApply sender dest amount st,
      by rw [if_neg hg, if_pos hov], ?_, ?_⟩
    · simp [h0, hle, hne, balanceOf]
    · intro _
      refine ⟨?_, ?_, rfl⟩
      · unfold balanceOf transferApply
        dsimp only
        rw [Function.update_noteq (Ne.symm hne), Function.update_same]
        omega
      · unfold balanceOf transferApply
        dsimp only
        rw [Function.update_same]

/-- Witness for C2: a transfer of 30 out of 100 from the creator. -/
theorem transfer_correct_witness :
    ∃ b st', transfer addrA addrB 30 exSt = some (b, st') ∧
      (b = true ↔ 30 ≠ 0 ∧ 30 ≤ balanceOf exSt addrA ∧ addrB ≠ addrA) ∧
      (b = true →
        balanceOf st' addrA + 30 = balanceOf exSt addrA ∧
        balanceOf st' addrB = balanceOf exSt addrB + 30 ∧
        st'.events = exSt.events ++ [Event.Transfer addrA addrB 30]) :=
  transfer_correct (Reachable.init (by norm_num)) addrA addrB 30

/-- C4: whenever `transfer` or `transferFrom` returns false, every balance
slot, every allowance slot, the total-supply slot, the owner slot, and
the event log are exactly as they were before the call. -/
theorem reject_leaves_state_unchanged
    (sender dest caller source : Address) (amount : Nat) (st st1 st2 : State) :
    (transfer sender dest amount st = some (false, st1) →
      st1.balances = st.balances ∧ st1.allowances = st.allowances ∧
      st1.totalSupply = st.totalSupply ∧ st1.owner = st.owner ∧
      st1.events = st.events) ∧
    (transferFrom caller source dest amount st = some (false, st2) →
      st2.balances = st.balances ∧ st2.allowances = st.allowances ∧
      st2.totalSupply = st.totalSupply ∧ st2.owner = st.owner ∧
      st2.events = st.events) := by
  constructor <;> intro heq
  · rw [transfer_eq_cases] at heq
    split_ifs at heq with h1 h2 <;> simp at heq
    subst heq
    exact ⟨rfl, rfl, rfl, rfl, rfl⟩
  · rw [transferFrom_eq_cases] at heq
    split_ifs at heq with h1 h2 <;> simp at heq
    subst heq
    exact ⟨rfl, rfl, rfl, rfl, rfl⟩

/-- Witness for C4: the rejected self-transfer and the rejected
zero-allowance delegated transfer at concrete states. -/
theorem reject_leaves_state_unchanged_witness :
    exSt.balances = exSt.balances ∧ exSt.allowances = exSt.allowances ∧
    exSt.totalSupply = exSt.totalSupply ∧ exSt.owner = exSt.owner ∧
    exSt.events = exSt.events :=
  (reject_leaves_state_unchanged addrA addrA addrA addrA 5 exSt exSt exSt).1 rfl

/-- C5: `approve` always returns true and emits one `Approval` event
carrying `(owner, spender, value)`; approving `v1` then `v2` for the same
spender leaves the allowance at `v2`, not `v1 + v2`. -/
theorem approve_always_overwrites (owner spender : Address) (v1 v2 : Nat)
    (st : State) :
    (approve owner spender v1 st).1 = true ∧
    (approve owner spender v1 st).2.events =
      st.events ++ [Event.Approval owner spender v1] ∧
    allowance (approve owner spender v2 (approve owner spender v1 st).2).2
      owner spender = v2 := by
  refine ⟨rfl, rfl, ?_⟩
  simp [approve, allowance]

/-- C3: in every reachable state, with `allowed = allowance(source, caller)`,
`transferFrom(caller, source, dest, amount)` returns true if and only if
`allowed >= amount` and `amount != 0` and `balanceOf(source) >= amount` and
`dest != source`; when it returns true, `allowance(source, caller)`
decreases by `amount`, the source's balance decreases by `amount`, the
recipient's balance increases by `amount`, and exactly one `Transfer`
event carrying `(source, dest, amount)` is emitted. -/
theorem transferFrom_correct {creator : Address} {supply : Nat} {st : State}
    (h : Reachable creator supply st) (caller source dest : Address)
    (amount : Nat) :
    ∃ b st', transferFrom caller source dest amount st = some (b, st') ∧
      (b = true ↔ amount ≤ allowance st source caller ∧ amount ≠ 0 ∧
        amount ≤ balanceOf st source ∧ dest ≠ source) ∧
      (b = true →
        allowance st' source caller + amount = allowance st source caller ∧
        balanceOf st' source + amount = balanceOf st source ∧
        balanceOf st' dest = balanceOf st dest + amount ∧
        st'.events = st.events ++ [Event.Transfer source dest amount]) := by
  rw [transferFrom_eq_cases]
  by_cases hg : st.allowances source caller < amount ∨ amount = 0 ∨
      st.balances source < amount ∨ dest = source
  · refine ⟨false, st, by simp [hg], ?_, by simp⟩
    simp only [Bool.false_eq_true, false_iff]
    rintro ⟨hal, h0, hle, hne⟩
    rcases hg with hx | hx | hx | hx
    · exact absurd hal (by unfold allowance; omega)
    · exact h0 hx
    · exact absurd hle (by unfold balanceOf; omega)
    · exact hne hx
  · have hne : dest ≠ source := fun hh => hg (Or.inr (Or.inr (Or.inr hh)))
    have h0 : amount ≠ 0 := fun hh => hg (Or.inr (Or.inl hh))
    have hle : amount ≤ st.balances source :=
      Nat.le_of_not_lt fun hh => hg (Or.inr (Or.inr (Or.inl hh)))
    have hal : amount ≤ st.allowances source caller :=
      Nat.le_of_not_lt fun hh => hg (Or.inl hh)
    have hbd := pair_le_totalSupply h hne
    have hov : st.balances dest + amount < 2 ^ 256 := by omega
    refine ⟨true, transferFromApply caller source dest amount st,
      by rw [if_neg hg, if_pos hov], ?_, ?_⟩
    · simp [hal, h0, hle, hne, allowance, balanceOf]
    · intro _
      refine ⟨?_, ?_, ?_, rfl⟩
      · unfold allowance transferFromApply
        dsimp only
        rw [Function.update_same, Function.update_same]
        omega
      · unfold balanceOf transferFromApply
        dsimp only
        rw [Function.update_noteq (Ne.symm hne), Function.update_same]
        omega
      · unfold balanceOf transferFromApply
        dsimp only
        rw [Function.update_same]

/-- Witness for C3: a delegated transfer of 10, spending an allowance of
50 granted by the creator. -/
theorem transferFrom_correct_witness :
    ∃ b st', transferFrom addrB addrA addrC 10 exApSt = some (b, st') ∧
      (b = true ↔ 10 ≤ allowance exApSt addrA addrB ∧ 10 ≠ 0 ∧
        10 ≤ balanceOf exApSt addrA ∧ addrC ≠ addrA) ∧
      (b = true →
        allowance st' addrA addrB + 10 = allowance exApSt addrA addrB ∧
        balanceOf st' addrA + 10 = balanceOf exApSt addrA ∧
        balanceOf st' addrC = balanceOf exApSt addrC + 10 ∧
        st'.events = exApSt.events ++ [Event.Transfer addrA addrC 10]) :=
  transferFrom_correct (Reachable.stepApprove (Reachable.init (by norm_num)))
    addrB addrA addrC 10

/-- C6: in every state reachable from a single construction, the guarded
subtractions of `transfer` and `transferFrom` never underflow and the
recipient-credit addition never overflows the 256-bit Amount: neither
call ever aborts with an arithmetic fault (`none`), and the embedded
`u256_add`/`u256_sub` never silently wrap. -/
theorem no_arithmetic_fault {creator : Address} {supply : Nat} {st : State}
    (h : Reachable creator supply st) :
    ∀ (sender dest caller source : Address) (amount : Nat),
      transfer sender dest amount st ≠ none ∧
      transferFrom caller source dest amount st ≠ none := by
  intro sender dest caller source amount
  constructor
  · rw [transfer_eq_cases]
    split_ifs with h1 h2
    · simp
    · simp
    · exfalso
      have hne : dest ≠ sender := fun hh => h1 (Or.inr (Or.inr hh))
      have hle : amount ≤ st.balances sender :=
        Nat.le_of_not_lt fun hh => h1 (Or.inr (Or.inl hh))
      have hbd := pair_le_totalSupply h hne
      omega
  · rw [transferFrom_eq_cases]
    split_ifs with h1 h2
    · simp
    · simp
    · exfalso
      have hne : dest ≠ source := fun hh => h1 (Or.inr (Or.inr (Or.inr hh)))
      have hle : amount ≤ st.balances source :=
        Nat.le_of_not_lt fun hh => h1 (Or.inr (Or.inr (Or.inl hh)))
      have hbd := pair_le_totalSupply h hne
      omega

/-- Witness for C6 at the concrete state `constructor(addrA, 100)`. -/
theorem no_arithmetic_fault_witness :
    transfer addrA addrB 5 exSt ≠ none ∧
    transferFrom addrA addrA addrB 5 exSt ≠ none :=
  @no_arithmetic_fault addrA 100 exSt (Reachable.init (by norm_num))
    addrA addrB addrA addrA 5

/-- C10: when the caller equals the source address,
`transferFrom(caller, caller, dest, amount)` returns true only if
`allowance(caller, caller) >= amount`: an owner gets no implicit
permission to move their own funds through `transferFrom`. -/
theorem no_implicit_self_delegation
    (caller dest : Address) (amount : Nat) (st st' : State)
    (h : transferFrom caller caller dest amount st = some (true, st')) :
    amount ≤ allowance st caller caller := by
  rw [transferFrom_eq_cases] at h
  split_ifs at h with h1 h2
  · simp at h
  · exact Nat.le_of_not_lt fun hh => h1 (Or.inl hh)

/-- Witness for C10: a successful self-delegated transfer after the
owner has approved themself. -/
theorem no_implicit_self_delegation_witness :
    10 ≤ allowance exSelfApSt addrA addrA :=
  no_implicit_self_delegation addrA addrB 10 exSelfApSt
    (transferFromApply addrA addrA addrB 10 exSelfApSt) rfl

theorem addressBytes_injective : Function.Injective addressBytes := by
  intro a b h
  unfold addressBytes at h
  have hf := List.ofFn_injective h
  funext i
  exact Fin.val_injective (congrFun hf i)

/-- C7: `balance_key` is a pure, deterministic, injective function of the
address; for any two distinct addresses the keys differ, and every
balance key differs from the fixed total-supply key and the fixed owner
key: balance keys carry leading tag byte 1 while the fixed keys carry
leading bytes 2 and 3. -/
theorem balance_key_correct :
    (∀ a b : Address, a ≠ b → balance_key a ≠ balance_key b) ∧
    (∀ a : Address,
      balance_key a ≠ TOTAL_SUPPLY_KEY ∧ balance_key a ≠ OWNER_KEY ∧
      (balance_key a).head? = some 1) ∧
    TOTAL_SUPPLY_KEY.head? = some 2 ∧ OWNER_KEY.head? = some 3 := by
  refine ⟨?_, ?_, rfl, rfl⟩
  · intro a b hab hk
    unfold balance_key at hk
    injection hk with h1 h2
    exact hab (addressBytes_injective (List.append_cancel_left h2))
  · intro a
    refine ⟨?_, ?_, rfl⟩
    · intro hk
      unfold balance_key TOTAL_SUPPLY_KEY at hk
      injection hk with h1 h2
      omega
    · intro hk
      unfold balance_key OWNER_KEY at hk
      injection hk with h1 h2
      omega

/-- Witness for C7 at two concrete distinct addresses. -/
theorem balance_key_correct_witness :
    balance_key addrA ≠ balance_key addrB :=
  balance_key_correct.1 addrA addrB (by decide)

/-- C8: `allowance_key(owner, spender)` is computed exactly as the
keccak-256 hash of the fixed ASCII label `"allowance_key"` concatenated
with the owner's 20 raw bytes followed by the spender's 20 raw bytes,
and the hash input for `(a, b)` differs from the hash input for `(b, a)`
whenever `a ≠ b`. -/
theorem allowance_key_correct :
    (∀ owner spender : Address,
      allowance_key owner spender =
        keccak256 (("allowance_key".toList.map Char.toNat) ++
          addressBytes owner ++ addressBytes spender)) ∧
    (∀ a b : Address, a ≠ b → allowanceKeyInput a b ≠ allowanceKeyInput b a) := by
  refine ⟨fun _ _ => rfl, ?_⟩
  intro a b hab h
  unfold allowanceKeyInput at h
  rw [List.append_assoc, List.append_assoc] at h
  have h2 := List.append_cancel_left h
  have hlen : (addressBytes a).length = (addressBytes b).length := by
    unfold addressBytes
    simp
  exact hab (addressBytes_injective (List.append_inj h2 hlen).1)

/-- Witness for C8 at two concrete distinct addresses. -/
theorem allowance_key_correct_witness :
    allowanceKeyInput addrA addrB ≠ allowanceKeyInput addrB addrA :=
  allowance_key_correct.2 addrA addrB (by decide)

/-- C9: a successful `transfer(sender, dest, amount)` writes exactly the
two balance slots of `sender` and `dest`: every other balance slot, every
allowance slot, the total-supply slot, and the owner slot are unchanged;
a successful `transferFrom(caller, source, dest, amount)` writes exactly
the allowance slot of `(source, caller)` and the balance slots of
`source` and `dest`, leaving all other slots unchanged. -/
theorem success_frame
    (sender dest caller source : Address) (amount : Nat)
    (stA stB st1 st2 : State) :
    (transfer sender dest amount stA = some (true, st1) →
      (∀ a : Address, a ≠ sender → a ≠ dest → st1.balances a = stA.balances a) ∧
      st1.allowances = stA.allowances ∧
      st1.totalSupply = stA.totalSupply ∧ st1.owner = stA.owner) ∧
    (transferFrom caller source dest amount stB = some (true, st2) →
      (∀ a : Address, a ≠ source → a ≠ dest → st2.balances a = stB.balances a) ∧
      (∀ o s : Address, o ≠ source ∨ s ≠ caller →
        st2.allowances o s = stB.allowances o s) ∧
      st2.totalSupply = stB.totalSupply ∧ st2.owner = stB.owner) := by
  constructor <;> intro heq
  · rw [transfer_eq_cases] at heq
    split_ifs at heq with h1 h2
    · simp at heq
    · simp only [Option.some.injEq, Prod.mk.injEq, true_and] at heq
      subst heq
      refine ⟨?_, rfl, rfl, rfl⟩
      intro a ha1 ha2
      unfold transferApply
      dsimp only
      rw [Function.update_noteq ha2, Function.update_noteq ha1]
  · rw [transferFrom_eq_cases] at heq
    split_ifs at heq with h1 h2
    · simp at heq
    · simp only [Option.some.injEq, Prod.mk.injEq, true_and] at heq
      subst heq
      refine ⟨?_, ?_, rfl, rfl⟩
      · intro a ha1 ha2
        unfold transferFromApply
        dsimp only
        rw [Function.update_noteq ha2, Function.update_noteq ha1]
      · intro o s ho
        unfold transferFromApply
        dsimp only
        rcases eq_or_ne o source with rfl | hos
        · rw [Function.update_same, Function.update_noteq (ho.resolve_left (by simp))]
        · rw [Function.update_noteq hos]

/-- Witness for C9: a successful direct transfer and a successful
delegated transfer at concrete states, observed at an uninvolved
address and an uninvolved allowance slot. -/
theorem success_frame_witness :
    (transferApply addrA addrB 30 exSt).balances addrC = exSt.balances addrC ∧
    (transferFromApply addrB addrA addrB 30 exApSt).allowances addrB addrB =
      exApSt.allowances addrB addrB :=
  ⟨((success_frame addrA addrB addrB addrA 30 exSt exApSt
      (transferApply addrA addrB 30 exSt)
      (transferFromApply addrB addrA addrB 30 exApSt)).1 rfl).1 addrC
      (by decide) (by decide),
    ((success_frame addrA addrB addrB addrA 30 exSt exApSt
      (transferApply addrA addrB 30 exSt)
      (transferFromApply addrB addrA addrB 30 exApSt)).2 rfl).2.1 addrB addrB
      (Or.inl (by decide))⟩

end PwasmToken
